import Mathlib

/-!
Verification of the streaming core of a Zstandard binding library.

The development shallowly embeds the stream driver layer of the repository:
the `Operation` abstraction over `(InBuffer, OutBuffer)` from
`src/stream/raw.rs`, the `zio::Reader` driver from
`src/stream/zio/reader.rs`, the `zio::Writer` driver from
`src/stream/zio/writer.rs`, the skippable-frame surface from
`src/stream/read/mod.rs`, and the one-shot helpers `encode_all` /
`decode_all` from `src/stream/mod.rs`.

Bytes are modelled as `Nat` (the drivers copy bytes without arithmetic on
them).  A mutable byte slice cursor becomes an explicit record; fallible
calls return `Except IOError`; loops whose termination depends on the
wrapped operation take explicit fuel and return `Option`.

The native compression engine itself is not part of the sources (only the
bindings and callers are); where a claim depends on it, it is modelled from
the specification as an opaque step function (see `modelCEngine` /
`modelDEngine` below).
-/

namespace Zst

/-- Error kinds of `std::io::ErrorKind` used by the streaming core. -/
inductive ErrorKind where
  | unexpectedEof
  | wouldBlock
  | interrupted
  | writeZero
  | other
  deriving DecidableEq, Repr

/-- An `std::io::Error`: a kind together with its message. -/
structure IOError where
  kind : ErrorKind
  msg : String
  deriving DecidableEq, Repr

def msgIncompleteFrame : String := "incomplete frame"

def msgWriteZero : String := "writer will not accept any more data"

def msgFailedFill : String := "failed to fill whole buffer"

def msgUnsupportedFrame : String := "Unsupported frame parameter"

def msgBufferTooSmall : String := "Destination buffer is too small"

def msgFailedWriteAll : String := "failed to write whole buffer"

/-- The `IncompleteFrame` error built in `raw.rs` (`Decoder::finish`) and
`zio/writer.rs` (`Writer::finish`). -/
def incompleteFrameErr : IOError := ⟨ErrorKind.unexpectedEof, msgIncompleteFrame⟩

/-- The `WriteZero` error built in `Writer::write_from_offset`. -/
def writeZeroErr : IOError := ⟨ErrorKind.writeZero, msgWriteZero⟩

/-- The error `Reader::read_skippable_frame` raises when the next magic is
not in the skippable range (kind `Other` in the source). -/
def unsupportedFrameErr : IOError := ⟨ErrorKind.other, msgUnsupportedFrame⟩

/-- The error `Reader::read_skippable_frame` raises when the destination
buffer cannot hold the frame content (kind `Other` in the source). -/
def bufferTooSmallErr : IOError := ⟨ErrorKind.other, msgBufferTooSmall⟩

/-- Modelled from the spec: `map_error_code` (defined in the crate root,
which is not among the sources) wraps the engine's textual error name in an
error of kind `Other`. -/
def engineErr (name : String) : IOError := ⟨ErrorKind.other, name⟩

def msgInterrupted : String := "interrupted system call"

/-- A transient `Interrupted` error from the underlying I/O. -/
def interruptedErr : IOError := ⟨ErrorKind.interrupted, msgInterrupted⟩

/-- `zstd_safe::InBuffer`: a read cursor over a caller-owned byte slice. -/
structure InBuffer where
  src : List Nat
  pos : Nat
  deriving DecidableEq, Repr

/-- `InBuffer::around`: wrap a slice, starting with `pos = 0`. -/
def InBuffer.around (src : List Nat) : InBuffer := ⟨src, 0⟩

/-- `zstd_safe::OutBuffer`: a write cursor over a writable byte region.
`written` is the initialized prefix `dst[0..pos]`; `cap` the capacity. -/
structure OutBuffer where
  written : List Nat
  cap : Nat
  deriving DecidableEq, Repr

/-- The write position `pos` of an `OutBuffer` (length of the written
prefix). -/
def OutBuffer.pos (o : OutBuffer) : Nat := o.written.length

/-- `OutBuffer::around` on an empty (cleared) buffer of capacity `cap`. -/
def OutBuffer.fresh (cap : Nat) : OutBuffer := ⟨[], cap⟩

/-- Append bytes to an `OutBuffer` (advancing `pos` by their count). -/
def OutBuffer.write (o : OutBuffer) (bs : List Nat) : OutBuffer :=
  ⟨o.written ++ bs, o.cap⟩

/-- The `Operation` trait of `raw.rs`: a single compression or decompression
step over an input and an output window, plus `flush`, `finish`, `reinit`.
The state type `σ` stands for the operation's owned context. -/
structure Operation (σ : Type) where
  run : σ → InBuffer → OutBuffer → Except IOError (σ × InBuffer × OutBuffer × Nat)
  flush : σ → OutBuffer → Except IOError (σ × OutBuffer × Nat)
  finish : σ → OutBuffer → Bool → Except IOError (σ × OutBuffer × Nat)
  reinit : σ → Except IOError σ

/-- Default `Operation::flush` (raw.rs lines 55-61): ignore the output,
return `Ok(0)`. -/
def defaultFlush (s : σ) (o : OutBuffer) : Except IOError (σ × OutBuffer × Nat) :=
  Except.ok (s, o, 0)

/-- Default `Operation::finish` (raw.rs lines 76-84): ignore the arguments,
return `Ok(0)`. -/
def defaultFinish (s : σ) (o : OutBuffer) (_finishedFrame : Bool) :
    Except IOError (σ × OutBuffer × Nat) :=
  Except.ok (s, o, 0)

/-- Default `Operation::reinit` (raw.rs lines 66-68): return `Ok(())`. -/
def defaultReinit (s : σ) : Except IOError σ := Except.ok s

/-- `NoOp::run` (raw.rs lines 91-114): copy
`min(remaining input, remaining output capacity)` bytes from the input
cursor to the output cursor and return `Ok(0)`. -/
def noOpRun (i : InBuffer) (o : OutBuffer) : InBuffer × OutBuffer × Nat :=
  let len := min (i.src.length - i.pos) (o.cap - o.pos)
  (⟨i.src, i.pos + len⟩, o.write ((i.src.drop i.pos).take len), 0)

/-- The `NoOp` operation: stateless pass-through; `flush`/`finish`/`reinit`
are the trait defaults. -/
def NoOp : Operation Unit where
  run := fun s i o => Except.ok (s, noOpRun i o)
  flush := defaultFlush
  finish := defaultFinish
  reinit := defaultReinit

/-- The native compression context (`zstd_safe::CCtx`), visible to the core
only through these four step functions.  Errors are the engine's textual
error names. -/
structure CEngine (γ : Type) where
  compressStream : γ → InBuffer → OutBuffer → Except String (γ × InBuffer × OutBuffer × Nat)
  flushStream : γ → OutBuffer → Except String (γ × OutBuffer × Nat)
  endStream : γ → OutBuffer → Except String (γ × OutBuffer × Nat)
  reset : γ → Except String γ

/-- The native decompression context (`zstd_safe::DCtx`), visible to the
core only through its step and reset functions. -/
structure DEngine (δ : Type) where
  decompressStream : δ → InBuffer → OutBuffer → Except String (δ × InBuffer × OutBuffer × Nat)
  reset : δ → Except String δ

/-- `impl Operation for Encoder` (raw.rs lines 297-329): thin wrappers
around the engine step functions, each mapping engine errors through
`map_error_code`. -/
def Encoder.op (E : CEngine γ) : Operation γ where
  run := fun s i o => (E.compressStream s i o).mapError engineErr
  flush := fun s o => (E.flushStream s o).mapError engineErr
  finish := fun s o _finishedFrame => (E.endStream s o).mapError engineErr
  reinit := fun s => (E.reset s).mapError engineErr

/-- `Decoder::flush` (raw.rs lines 188-203): run with no additional input;
report `Ok(0)` when the output buffer is not full, else pretend one byte
remains. -/
def decoderFlush (E : DEngine δ) (s : δ) (o : OutBuffer) :
    Except IOError (δ × OutBuffer × Nat) :=
  match (E.decompressStream s (InBuffer.around []) o).mapError engineErr with
  | Except.error e => Except.error e
  | Except.ok (s', _i', o', _hint) =>
      if o'.pos < o'.cap then Except.ok (s', o', 0) else Except.ok (s', o', 1)

/-- `Decoder::finish` (raw.rs lines 212-226): `Ok(0)` when the current
frame is finished, otherwise the `IncompleteFrame` error. -/
def decoderFinish (s : δ) (o : OutBuffer) (finishedFrame : Bool) :
    Except IOError (δ × OutBuffer × Nat) :=
  if finishedFrame then Except.ok (s, o, 0) else Except.error incompleteFrameErr

/-- `impl Operation for Decoder` (raw.rs lines 177-226). -/
def Decoder.op (E : DEngine δ) : Operation δ where
  run := fun s i o => (E.decompressStream s i o).mapError engineErr
  flush := decoderFlush E
  finish := fun s o ff => decoderFinish s o ff
  reinit := fun s => (E.reset s).mapError engineErr

/-- An observable call made by a driver to its wrapped operation.  `runEv`
records the number of caller-visible input bytes the step consumed. -/
inductive OpEvent where
  | runEv (consumed : Nat)
  | flushEv
  | finishEv
  | reinitEv
  deriving DecidableEq, Repr

/-- Total number of input bytes consumed by the `run` calls of a trace. -/
def consumedSum (evs : List OpEvent) : Nat :=
  evs.foldr (fun e a => match e with | OpEvent.runEv n => n + a | _ => a) 0

/-- The buffered byte source wrapped by a `zio::Reader` (the `BufRead`).
`fill_buf` first reports any pending transient errors (one per call), then
exposes all remaining buffered data; an empty window signals EOF. -/
structure BufSource where
  errs : List IOError
  data : List Nat
  deriving DecidableEq, Repr

/-- `BufRead::fill_buf` as called through `fill_buf` in `zio/reader.rs`
lines 62-80: the workaround there forwards the underlying result
unchanged, including any `Interrupted` error. -/
def BufSource.fillBuf : BufSource → BufSource × Except IOError (List Nat)
  | ⟨e :: es, d⟩ => (⟨es, d⟩, Except.error e)
  | ⟨[], d⟩ => (⟨[], d⟩, Except.ok d)

/-- `BufRead::consume`: mark `n` bytes of the buffered window as used. -/
def BufSource.consume (s : BufSource) (n : Nat) : BufSource :=
  ⟨s.errs, s.data.drop n⟩

/-- The state of `zio::Reader` (reader.rs lines 12-20). -/
structure ReaderState (σ : Type) where
  reader : BufSource
  opState : σ
  finished : Bool
  singleFrame : Bool
  finishedFrame : Bool
  deriving DecidableEq, Repr

/-- `Reader::new` (reader.rs lines 26-34): all flags start false. -/
def ReaderState.new (reader : BufSource) (opState : σ) : ReaderState σ :=
  ⟨reader, opState, false, false, false⟩

/-- Outcome of one iteration of the `Reader::read` loop: either a value is
returned to the caller, or the loop continues. -/
inductive StepRes where
  | ret (r : Except IOError (List Nat))
  | again
  deriving Repr

/-- Common tail of the read loop body (reader.rs lines 148-155): report the
consumed input to the source, then return the output if any was produced,
else go around the loop. -/
def readTail (st : ReaderState σ) (srcPos : Nat) (dst : OutBuffer)
    (evs : List OpEvent) : ReaderState σ × StepRes × List OpEvent :=
  let st' := { st with reader := st.reader.consume srcPos }
  if dst.pos > 0 then (st', StepRes.ret (Except.ok dst.written), evs)
  else (st', StepRes.again, evs)

/-- One iteration of the `Reader::read` loop (reader.rs lines 93-156), for a
read request of `bufCap` bytes.  The returned trace lists the operation
calls the iteration performed. -/
def readStep (op : Operation σ) (st : ReaderState σ) (bufCap : Nat) :
    ReaderState σ × StepRes × List OpEvent :=
  let fb := st.reader.fillBuf
  match fb.2 with
  | Except.error e => ({ st with reader := fb.1 }, StepRes.ret (Except.error e), [])
  | Except.ok input =>
    let st := { st with reader := fb.1 }
    let dst := OutBuffer.fresh bufCap
    if input.isEmpty then
      -- EOF on the source: phase 2, flush out the operation's buffer.
      match op.finish st.opState dst st.finishedFrame with
      | Except.error e => (st, StepRes.ret (Except.error e), [OpEvent.finishEv])
      | Except.ok (s', dst', hint) =>
        let st := { st with opState := s' }
        if hint = 0 then
          let st := { st with finished := true }
          if dst'.pos = 0 then (st, StepRes.ret (Except.ok []), [OpEvent.finishEv])
          else readTail st 0 dst' [OpEvent.finishEv]
        else readTail st 0 dst' [OpEvent.finishEv]
    else
      -- Non-empty window: phase 1, feed input to the operation.
      let src := InBuffer.around input
      let pre : Except IOError (ReaderState σ × List OpEvent) :=
        if st.finishedFrame then
          match op.reinit st.opState with
          | Except.error e => Except.error e
          | Except.ok s1 =>
            Except.ok ({ st with opState := s1, finishedFrame := false }, [OpEvent.reinitEv])
        else Except.ok (st, [])
      match pre with
      | Except.error e => (st, StepRes.ret (Except.error e), [OpEvent.reinitEv])
      | Except.ok (st1, evs) =>
        match op.run st1.opState src dst with
        | Except.error e =>
          (st1, StepRes.ret (Except.error e), evs ++ [OpEvent.runEv 0])
        | Except.ok (s2, src', dst', hint) =>
          let st2 := { st1 with opState := s2 }
          let st3 :=
            if hint = 0 then
              { st2 with finishedFrame := true,
                         finished := st2.singleFrame || st2.finished }
            else st2
          readTail st3 src'.pos dst' (evs ++ [OpEvent.runEv src'.pos])

/-- The `loop` of `Reader::read`, with fuel bounding the number of
iterations (the source code loops until something is written). -/
def readLoop (op : Operation σ) (bufCap : Nat) :
    Nat → ReaderState σ → Option (ReaderState σ × Except IOError (List Nat) × List OpEvent)
  | 0, _ => none
  | fuel + 1, st =>
    match readStep op st bufCap with
    | (st', StepRes.ret r, evs) => some (st', r, evs)
    | (st', StepRes.again, evs) =>
      (readLoop op bufCap fuel st').map (fun t => (t.1, t.2.1, evs ++ t.2.2))

/-- `Reader::read` (reader.rs lines 87-157): return `Ok(0)` at once when
`finished`, else run the loop. -/
def readerRead (op : Operation σ) (fuel : Nat) (st : ReaderState σ) (bufCap : Nat) :
    Option (ReaderState σ × Except IOError (List Nat) × List OpEvent) :=
  if st.finished then some (st, Except.ok [], [])
  else readLoop op bufCap fuel st

/-- One scripted response of the byte sink wrapped by a `zio::Writer`:
either accept up to `n` bytes, or fail with an error. -/
inductive SinkResp where
  | accept (n : Nat)
  | fail (e : IOError)
  deriving DecidableEq, Repr

/-- The byte sink wrapped by a `zio::Writer` (the underlying `Write`).
Each `write` call consumes one scripted response; once the script is
exhausted the sink accepts everything (like a `Vec<u8>`).  `written`
collects the bytes the sink has accepted, in order. -/
structure Sink where
  resps : List SinkResp
  written : List Nat
  deriving DecidableEq, Repr

/-- Capacity of the `Writer`'s staging buffer (writer.rs line 43). -/
def bufCapacity : Nat := 32 * 1024

/-- The state of `zio::Writer` (writer.rs lines 13-26). -/
structure WriterState (σ : Type) where
  sink : Sink
  opState : σ
  offset : Nat
  buffer : List Nat
  finished : Bool
  finishedFrame : Bool
  writingFrame : Bool
  deriving DecidableEq, Repr

/-- `Writer::new` (writer.rs lines 36-50): empty buffer, all flags false. -/
def writerNew (sink : Sink) (opState : σ) : WriterState σ :=
  ⟨sink, opState, 0, [], false, false, false⟩

/-- The loop of `Writer::write_from_offset` (writer.rs lines 115-132),
recursing on the sink's response script: drain `buffer[offset..]` to the
sink, retrying on `Interrupted`, turning `Ok(0)` into a `WriteZero` error
and surfacing other errors.  Returns the updated script, accepted bytes,
offset, and the error if any. -/
def writeFromOffsetGo : List SinkResp → List Nat → List Nat → Nat →
    List SinkResp × List Nat × Nat × Option IOError
  | [], w, buffer, offset =>
    if offset < buffer.length then ([], w ++ buffer.drop offset, buffer.length, none)
    else ([], w, offset, none)
  | r :: rs, w, buffer, offset =>
    if offset < buffer.length then
      match r with
      | SinkResp.accept n =>
        let chunk := buffer.drop offset
        let k := min n chunk.length
        if k = 0 then (rs, w, offset, some writeZeroErr)
        else writeFromOffsetGo rs (w ++ chunk.take k) buffer (offset + k)
      | SinkResp.fail e =>
        if e.kind = ErrorKind.interrupted then writeFromOffsetGo rs w buffer offset
        else (rs, w, offset, some e)
    else (r :: rs, w, offset, none)

/-- `Writer::write_from_offset` on the writer state. -/
def WriterState.writeFromOffset (st : WriterState σ) : WriterState σ × Option IOError :=
  let r := writeFromOffsetGo st.sink.resps st.sink.written st.buffer st.offset
  ({ st with sink := ⟨r.1, r.2.1⟩, offset := r.2.2.1 }, r.2.2.2)

/-- `Writer::finish` (writer.rs lines 61-97), with fuel bounding the number
of loop iterations.  Each iteration drains the staging buffer, then — if
not yet finished — clears the buffer and calls `op.finish` into it
(`with_buffer`), raising `IncompleteFrame` when the operation reports
remaining work but produced nothing. -/
def writerFinish (op : Operation σ) :
    Nat → WriterState σ → Option (WriterState σ × Except IOError Unit × List OpEvent)
  | 0, _ => none
  | fuel + 1, st =>
    match st.writeFromOffset with
    | (st1, some e) => some (st1, Except.error e, [])
    | (st1, none) =>
      if st1.finished then
        some ({ st1 with writingFrame := false }, Except.ok (), [])
      else
        match op.finish st1.opState (OutBuffer.fresh bufCapacity) st1.finishedFrame with
        | Except.error e =>
          some ({ st1 with buffer := [], offset := 0 }, Except.error e, [OpEvent.finishEv])
        | Except.ok (s', dst, hint) =>
          let st2 := { st1 with opState := s', buffer := dst.written, offset := 0 }
          if hint ≠ 0 ∧ st2.buffer = [] then
            some (st2, Except.error incompleteFrameErr, [OpEvent.finishEv])
          else
            let st3 := { st2 with finished := hint = 0 }
            (writerFinish op fuel st3).map
              (fun t => (t.1, t.2.1, OpEvent.finishEv :: t.2.2))

/-- The frame-boundary step at the top of the `Writer::write` loop
(writer.rs lines 209-214): when the previous frame is finished,
re-initialize the operation and clear the flag (supporting concatenated
frames on the write side). -/
def writerReinitPhase (op : Operation σ) (st : WriterState σ) :
    Except IOError (WriterState σ × List OpEvent) :=
  if st.finishedFrame then
    match op.reinit st.opState with
    | Except.error e => Except.error e
    | Except.ok s0 =>
      Except.ok ({ st with opState := s0, finishedFrame := false }, [OpEvent.reinitEv])
  else Except.ok (st, [])

/-- The loop of `Writer::write` (writer.rs lines 204-237), with fuel.  Each
iteration drains the staging buffer, re-initializes the operation at a
frame boundary, then feeds the caller's full `buf` to `op.run` through a
cleared staging buffer; it returns as soon as some input was consumed (or
at once when `buf` is empty). -/
def writerWriteLoop (op : Operation σ) (buf : List Nat) :
    Nat → WriterState σ → Option (WriterState σ × Except IOError Nat × List OpEvent)
  | 0, _ => none
  | fuel + 1, st =>
    match st.writeFromOffset with
    | (st1, some e) => some (st1, Except.error e, [])
    | (st1, none) =>
      match writerReinitPhase op st1 with
      | Except.error e => some (st1, Except.error e, [OpEvent.reinitEv])
      | Except.ok (st2, evs) =>
        match op.run st2.opState (InBuffer.around buf) (OutBuffer.fresh bufCapacity) with
        | Except.error e =>
          some ({ st2 with buffer := [], offset := 0 }, Except.error e,
                evs ++ [OpEvent.runEv 0])
        | Except.ok (s', src', dst', hint) =>
          let st3 := { st2 with opState := s', buffer := dst'.written, offset := 0 }
          let st4 := if hint = 0 then { st3 with finishedFrame := true } else st3
          if src'.pos > 0 ∨ buf = [] then
            some (st4, Except.ok src'.pos, evs ++ [OpEvent.runEv src'.pos])
          else
            (writerWriteLoop op buf fuel st4).map
              (fun t => (t.1, t.2.1, evs ++ [OpEvent.runEv src'.pos] ++ t.2.2))

/-- `Writer::write` (writer.rs lines 198-238): set `writing_frame`, then
run the loop. -/
def writerWrite (op : Operation σ) (fuel : Nat) (st : WriterState σ) (buf : List Nat) :
    Option (WriterState σ × Except IOError Nat × List OpEvent) :=
  writerWriteLoop op buf fuel { st with writingFrame := true }

/-- A seekable byte source (`Read + Seek`), as used by the skippable-frame
surface: a cursor over a byte sequence. -/
structure Cursor where
  data : List Nat
  pos : Nat
  deriving DecidableEq, Repr

/-- `read_exact_or_seek_back` (read/mod.rs lines 88-115) on a cursor: read
exactly `n` bytes, or seek back to the starting position and fail with an
`UnexpectedEof` error. -/
def readExactOrSeekBack (c : Cursor) (n : Nat) : Cursor × Except IOError (List Nat) :=
  let avail := (c.data.drop c.pos).take n
  if avail.length = n then ({ c with pos := c.pos + n }, Except.ok avail)
  else (c, Except.error ⟨ErrorKind.unexpectedEof, msgFailedFill⟩)

/-- `Decoder::seek_back` (read/mod.rs lines 133-137): rewind the source by
`n` bytes. -/
def seekBack (c : Cursor) (n : Nat) : Cursor := { c with pos := c.pos - n }

/-- `u32::from_le_bytes` on a 4-byte window (missing bytes read as 0). -/
def u32le (b : List Nat) : Nat :=
  b.getD 0 0 + 256 * b.getD 1 0 + 65536 * b.getD 2 0 + 16777216 * b.getD 3 0

/-- `ZSTD_MAGIC_SKIPPABLE_START` (`0x184D2A50`). -/
def magicSkippableStart : Nat := 407710288

/-- Modelled from the spec: `Decoder::is_skippable_frame` (defined on the
raw decoder, which these sources only call) tests whether a 4-byte magic
lies in the skippable range `0x184D2A50 ..= 0x184D2A5F`. -/
def isSkippableMagic (m : Nat) : Bool :=
  magicSkippableStart ≤ m && m ≤ magicSkippableStart + 15

/-- `Decoder::read_skippable_frame` (read/mod.rs lines 141-187): peek the
8-byte skippable header; on a non-skippable magic or a too-small
destination, seek the 8 header bytes back and fail; otherwise read the
content into the destination and return `(content_size, variant, content)`. -/
def readSkippableFrame (c : Cursor) (destLen : Nat) :
    Cursor × Except IOError (Nat × Nat × List Nat) :=
  let r1 := readExactOrSeekBack c 4
  match r1.2 with
  | Except.error e => (r1.1, Except.error e)
  | Except.ok magicBuffer =>
    let c1 := r1.1
    let magicNumber := u32le magicBuffer
    let r2 := readExactOrSeekBack c1 4
    match r2.2 with
    | Except.error e => (r2.1, Except.error e)
    | Except.ok sizeBuffer =>
      let c2 := r2.1
      let contentSize := u32le sizeBuffer
      if ¬ isSkippableMagic magicNumber then
        (seekBack c2 8, Except.error unsupportedFrameErr)
      else if contentSize > destLen then
        (seekBack c2 8, Except.error bufferTooSmallErr)
      else if contentSize > 0 then
        let r3 := readExactOrSeekBack c2 contentSize
        match r3.2 with
        | Except.error e => (r3.1, Except.error e)
        | Except.ok content =>
          (r3.1, Except.ok (contentSize, (magicNumber - magicSkippableStart) % 256, content))
      else
        (c2, Except.ok (contentSize, (magicNumber - magicSkippableStart) % 256, []))

/-- Frame-start token of the model engine's wire format (the standard
Zstandard frame magic `0xFD2FB528`). -/
def magicToken : Nat := 4247762216

/-- Modelled from the spec: the frame the opaque engine emits for a session
whose accumulated input is `content` — a self-delimited unit: magic, then
the content length, then the content (§2 treats the engine as "given input
and output windows, consume some and produce some, return a hint and
possibly a frame-end signal"; the concrete layout is engine-internal). -/
def frameBytes (content : List Nat) : List Nat :=
  magicToken :: content.length :: content

/-- State of the model compression context: the configured level, the bytes
accepted in the current frame session, and — once `endStream` has begun —
the not-yet-emitted rest of the frame. -/
structure CState where
  level : Nat
  cur : List Nat
  pending : Option (List Nat)
  deriving DecidableEq, Repr

/-- The pending frame output of a model compression context (the frame of
the accumulated input if `endStream` has not yet begun). -/
def CState.pendingEff (s : CState) : List Nat :=
  match s.pending with
  | none => frameBytes s.cur
  | some p => p

/-- Modelled from the spec: the native compression engine.  `run` buffers
all offered input into the session (the engine owns an internal input
buffer); `endStream` emits the session's frame into the output window as
capacity allows, reporting the number of bytes still to write. -/
def modelCEngine : CEngine CState where
  compressStream := fun s i o =>
    Except.ok ({ s with cur := s.cur ++ i.src.drop i.pos },
               ⟨i.src, i.src.length⟩, o, 1)
  flushStream := fun s o => Except.ok (s, o, 0)
  endStream := fun s o =>
    let p := s.pendingEff
    let k := min p.length (o.cap - o.pos)
    let rest := p.drop k
    if rest.isEmpty then
      Except.ok (⟨s.level, [], none⟩, o.write (p.take k), 0)
    else
      Except.ok (⟨s.level, [], some rest⟩, o.write (p.take k), rest.length)
  reset := fun s => Except.ok ⟨s.level, [], none⟩

/-- State of the model decompression context: the header tokens collected
so far, and — once the header is parsed — the number of content bytes still
expected. -/
structure DState where
  hdr : List Nat
  need : Option Nat
  deriving DecidableEq, Repr

def msgUnknownFrame : String := "Unknown frame descriptor"

/-- Content phase of the model decoder: pass through up to
`min(expected, window, free capacity)` content bytes, signalling the frame
end (hint 0) exactly when the content is complete. -/
def dContentStep (n : Nat) (i : InBuffer) (o : OutBuffer) :
    DState × InBuffer × OutBuffer × Nat :=
  let window := i.src.drop i.pos
  let k := min n (min window.length (o.cap - o.pos))
  let i' : InBuffer := ⟨i.src, i.pos + k⟩
  let o' := o.write (window.take k)
  if n - k = 0 then (⟨[], none⟩, i', o', 0)
  else (⟨[], some (n - k)⟩, i', o', 1)

/-- Modelled from the spec: the native decompression engine.  Input is
consumed only as far as the current frame and the free output capacity
allow; a step returns hint 0 exactly when it completes (and fully flushes)
a frame, and does not consume past the frame's end. -/
def modelDEngine : DEngine DState where
  decompressStream := fun s i o =>
    match s.need with
    | some n => Except.ok (dContentStep n i o)
    | none =>
      let window := i.src.drop i.pos
      let t := min (2 - s.hdr.length) window.length
      let hdr' := s.hdr ++ window.take t
      let i1 : InBuffer := ⟨i.src, i.pos + t⟩
      if hdr'.length < 2 then Except.ok (⟨hdr', none⟩, i1, o, 1)
      else if hdr'.getD 0 0 ≠ magicToken then Except.error msgUnknownFrame
      else Except.ok (dContentStep (hdr'.getD 1 0) i1 o)
  reset := fun _ => Except.ok ⟨[], none⟩

/-- The model encoder as a `zio` operation. -/
def encOp : Operation CState := Encoder.op modelCEngine

/-- The model decoder as a `zio` operation. -/
def decOp : Operation DState := Decoder.op modelDEngine

/-- `Write::write_all` over `Writer::write` (as `io::copy` calls it): keep
writing until the whole slice is consumed, turning `Ok(0)` into a
`WriteZero` error.  `wFuel` bounds each inner `write` loop; the outer fuel
bounds the `write_all` loop. -/
def writeAllW (op : Operation σ) (wFuel : Nat) :
    Nat → WriterState σ → List Nat → Option (WriterState σ × Except IOError Unit)
  | 0, _, _ => none
  | fuel + 1, st, buf =>
    if buf.isEmpty then some (st, Except.ok ())
    else
      match writerWrite op wFuel st buf with
      | none => none
      | some (st', Except.error e, _) => some (st', Except.error e)
      | some (st', Except.ok 0, _) =>
        some (st', Except.error ⟨ErrorKind.writeZero, msgFailedWriteAll⟩)
      | some (st', Except.ok (k + 1), _) => writeAllW op wFuel fuel st' (buf.drop (k + 1))

/-- `io::copy` from a byte-slice reader into a `zio::Writer`: read up to
8192 bytes at a time and `write_all` them. -/
def ioCopyW (op : Operation σ) (wFuel : Nat) :
    Nat → WriterState σ → List Nat → Option (WriterState σ × Except IOError Unit)
  | 0, _, _ => none
  | fuel + 1, st, src =>
    if src.isEmpty then some (st, Except.ok ())
    else
      match writeAllW op wFuel (src.length + 1) st (src.take 8192) with
      | none => none
      | some (st', Except.error e) => some (st', Except.error e)
      | some (st', Except.ok ()) => ioCopyW op wFuel fuel st' (src.drop 8192)

/-- `encode_all` (stream/mod.rs lines 39-43 together with `copy_encode`,
lines 48-57): compress all data from the source into a fresh `Vec` through
a write-side `Encoder` built on the model engine, then `finish` the stream
and return the collected bytes. -/
def encode_all (s : List Nat) (level : Nat) : Option (Except IOError (List Nat)) :=
  let st0 : WriterState CState := writerNew ⟨[], []⟩ ⟨level, [], none⟩
  match ioCopyW encOp (s.length + 1) (s.length + 1) st0 s with
  | none => none
  | some (_, Except.error e) => some (Except.error e)
  | some (st1, Except.ok ()) =>
    match writerFinish encOp (s.length + 4) st1 with
    | none => none
    | some (st2, Except.ok (), _) => some (Except.ok st2.sink.written)
    | some (_, Except.error e, _) => some (Except.error e)

/-- `io::copy` from a `zio::Reader` into a `Vec`: read up to 8192 bytes at
a time, appending them to the accumulator, until a read returns `Ok(0)`. -/
def readAllR (op : Operation σ) (rFuel : Nat) :
    Nat → ReaderState σ → List Nat → Option (ReaderState σ × Except IOError (List Nat))
  | 0, _, _ => none
  | fuel + 1, st, acc =>
    match readerRead op rFuel st 8192 with
    | none => none
    | some (st', Except.error e, _) => some (st', Except.error e)
    | some (st', Except.ok bs, _) =>
      if bs.isEmpty then some (st', Except.ok acc)
      else readAllR op rFuel fuel st' (acc ++ bs)

/-- `decode_all` (stream/mod.rs lines 18-22 together with `copy_decode`,
lines 27-34): decompress all data from the source through a read-side
`Decoder` built on the model engine, collecting the output. -/
def decode_all (c : List Nat) : Option (Except IOError (List Nat)) :=
  match readAllR decOp 2 (c.length + 2) (ReaderState.new ⟨[], c⟩ ⟨[], none⟩) [] with
  | none => none
  | some (_, Except.error e) => some (Except.error e)
  | some (_, Except.ok out) => some (Except.ok out)

/-! ### Theorems -/

/-- C8: `NoOp`'s `run(input, output)` advances both cursors by exactly
`min(input.src.len() - input.pos, output capacity - output.pos)` bytes,
copies exactly those input bytes to the output unchanged, and returns
`Ok(0)`; `NoOp`'s `flush` and `finish` write nothing and return `Ok(0)`. -/
theorem c8_noop_copies_min (i : InBuffer) (o : OutBuffer) (ff : Bool) :
    (∃ i' o',
      NoOp.run () i o = Except.ok ((), i', o', 0) ∧
      i'.src = i.src ∧
      i'.pos = i.pos + min (i.src.length - i.pos) (o.cap - o.pos) ∧
      o'.cap = o.cap ∧
      o'.pos = o.pos + min (i.src.length - i.pos) (o.cap - o.pos) ∧
      o'.written =
        o.written ++ (i.src.drop i.pos).take (min (i.src.length - i.pos) (o.cap - o.pos))) ∧
    NoOp.flush () o = Except.ok ((), o, 0) ∧
    NoOp.finish () o ff = Except.ok ((), o, 0) := by
  refine ⟨⟨_, _, rfl, rfl, rfl, rfl, ?_, rfl⟩, rfl, rfl⟩
  simp only [OutBuffer.pos, OutBuffer.write, List.length_append, List.length_take,
    List.length_drop]
  omega

/-- C10: the raw decoder's `flush(output)` returns `Ok(0)` if and only if,
after the internal zero-input `run` step, the output buffer is not full;
whenever the output buffer ends up full it returns `Ok(1)`. -/
theorem c10_decoder_flush_drains (E : DEngine δ) (s s' : δ) (o o' : OutBuffer) (r : Nat)
    (h : (Decoder.op E).flush s o = Except.ok (s', o', r)) :
    (r = 0 ↔ o'.pos < o'.cap) ∧ (o'.pos = o'.cap → r = 1) := by
  unfold Decoder.op decoderFlush at h
  dsimp only at h
  cases he : (E.decompressStream s (InBuffer.around []) o).mapError engineErr with
  | error e => rw [he] at h; cases h
  | ok t =>
    obtain ⟨s1, i1, o1, hint⟩ := t
    rw [he] at h
    dsimp only at h
    by_cases hlt : o1.pos < o1.cap
    · rw [if_pos hlt] at h
      cases h
      exact ⟨by simp [hlt], fun hc => absurd hc (Nat.ne_of_lt hlt)⟩
    · rw [if_neg hlt] at h
      cases h
      exact ⟨by simp [hlt], fun _ => rfl⟩

/-- Witness for C10: the model decoder, flushed into an empty 5-byte output
window, reports `Ok(0)` with the window still not full. -/
theorem c10_decoder_flush_drains_witness :
    (0 = 0 ↔ (OutBuffer.fresh 5).pos < (OutBuffer.fresh 5).cap) ∧
    ((OutBuffer.fresh 5).pos = (OutBuffer.fresh 5).cap → 0 = 1) :=
  c10_decoder_flush_drains modelDEngine ⟨[], none⟩ ⟨[], none⟩
    (OutBuffer.fresh 5) (OutBuffer.fresh 5) 0 rfl

/-- C2: once a `Reader`'s `finished` flag is set, every `read` call returns
`Ok(0)`, performs no call to the wrapped operation, and leaves the state
(including `finished`) unchanged. -/
theorem c2_reader_finished_noop (op : Operation σ) (st : ReaderState σ)
    (fuel n : Nat) (h : st.finished = true) :
    readerRead op fuel st n = some (st, Except.ok [], []) := by
  unfold readerRead
  rw [h]
  rfl

/-- Witness for C2: a concrete finished reader state over `NoOp`. -/
theorem c2_reader_finished_noop_witness :
    (ReaderState.finished ⟨⟨[], [1, 2]⟩, (), true, false, false⟩ = true) ∧
    readerRead NoOp 3 ⟨⟨[], [1, 2]⟩, (), true, false, false⟩ 4 =
      some (⟨⟨[], [1, 2]⟩, (), true, false, false⟩, Except.ok [], []) :=
  ⟨rfl, c2_reader_finished_noop NoOp ⟨⟨[], [1, 2]⟩, (), true, false, false⟩ 3 4 rfl⟩

/-- C5 fails on the code: `fill_buf` in `zio/reader.rs` (lines 62-80) is a
workaround that does not retry, so an `Interrupted` error from the
underlying buffered source is surfaced verbatim by `Reader::read` (the `?`
at line 97) instead of being retried — contradicting both the spec and the
function's own doc comment. -/
theorem c5_interrupted_surfaced :
    readerRead NoOp 5 ⟨⟨[interruptedErr], [1, 2, 3]⟩, (), false, false, false⟩ 10 =
      some (⟨⟨[], [1, 2, 3]⟩, (), false, false, false⟩,
            Except.error interruptedErr, []) := rfl

/-- C4: the decoder operation's `finish(out, finished_frame)` returns the
`IncompleteFrame` error (kind `UnexpectedEof`) exactly when
`finished_frame` is false and `Ok(0)` otherwise; and a `Reader` that
reaches EOF with a frame still open propagates that error verbatim. -/
theorem c4_incomplete_frame (E : DEngine δ) (s : δ) (o : OutBuffer) (ff : Bool)
    (st : ReaderState δ) (n fuel : Nat)
    (hf : st.finished = false) (hr : st.reader = ⟨[], []⟩)
    (hff : st.finishedFrame = false) :
    ((Decoder.op E).finish s o ff =
       if ff then Except.ok (s, o, 0) else Except.error incompleteFrameErr) ∧
    readerRead (Decoder.op E) (fuel + 1) st n =
      some (st, Except.error incompleteFrameErr, [OpEvent.finishEv]) := by
  constructor
  · cases ff <;> rfl
  · obtain ⟨rd, os, fin, sf, ffr⟩ := st
    cases hr
    cases hf
    cases hff
    rfl

/-- Witness for C4: the model decoder at EOF with an open frame. -/
theorem c4_incomplete_frame_witness :
    ((Decoder.op modelDEngine).finish ⟨[], none⟩ (OutBuffer.fresh 4) false =
       if false then Except.ok (⟨[], none⟩, OutBuffer.fresh 4, 0)
       else Except.error incompleteFrameErr) ∧
    readerRead (Decoder.op modelDEngine) 1
        (⟨⟨[], []⟩, ⟨[], none⟩, false, false, false⟩ : ReaderState DState) 4 =
      some (⟨⟨[], []⟩, ⟨[], none⟩, false, false, false⟩,
            Except.error incompleteFrameErr, [OpEvent.finishEv]) :=
  c4_incomplete_frame modelDEngine ⟨[], none⟩ (OutBuffer.fresh 4) false
    ⟨⟨[], []⟩, ⟨[], none⟩, false, false, false⟩ 4 0 rfl rfl rfl

/-- C3: in a `Reader::read` iteration with a non-empty input window, if
`finished_frame` is set the driver calls `op.reinit` and clears the flag
before calling `op.run`; whenever `op.run` returns hint 0 the driver sets
`finished_frame = true`, additionally setting `finished = true` when
`single_frame` mode is enabled. -/
theorem c3_reader_frame_protocol (op : Operation σ) (st : ReaderState σ) (n : Nat)
    (s1 s2 : σ) (src' : InBuffer) (dst' : OutBuffer) (hint : Nat)
    (he : st.reader.errs = []) (hw : st.reader.data ≠ [])
    (hre : if st.finishedFrame then op.reinit st.opState = Except.ok s1
           else s1 = st.opState)
    (hrun : op.run s1 (InBuffer.around st.reader.data) (OutBuffer.fresh n) =
      Except.ok (s2, src', dst', hint)) :
    (readStep op st n).2.2 =
      (if st.finishedFrame then [OpEvent.reinitEv] else []) ++ [OpEvent.runEv src'.pos] ∧
    (readStep op st n).1.finishedFrame = decide (hint = 0) ∧
    (readStep op st n).1.finished =
      ((decide (hint = 0) && st.singleFrame) || st.finished) := by
  obtain ⟨⟨errs, data⟩, os, fin, sf, ffr⟩ := st
  dsimp only at he hw hre hrun ⊢
  subst he
  have hne : data.isEmpty = false := by
    cases data with
    | nil => exact absurd rfl hw
    | cons a l => rfl
  cases ffr with
  | true =>
    rw [if_pos rfl] at hre
    simp only [readStep, BufSource.fillBuf, hne, readTail, hre, Bool.false_eq_true,
      if_false, if_true, eq_self_iff_true]
    rw [hrun]
    dsimp only
    by_cases h0 : hint = 0
    · subst h0
      by_cases hp : 0 < dst'.pos <;> simp [hp]
    · simp only [if_neg h0]
      by_cases hp : 0 < dst'.pos <;> simp [hp, h0]
  | false =>
    rw [if_neg Bool.false_ne_true] at hre
    subst hre
    simp only [readStep, BufSource.fillBuf, hne, readTail, Bool.false_eq_true,
      if_false, if_true, eq_self_iff_true]
    rw [hrun]
    dsimp only
    by_cases h0 : hint = 0
    · subst h0
      by_cases hp : 0 < dst'.pos <;> simp [hp]
    · simp only [if_neg h0]
      by_cases hp : 0 < dst'.pos <;> simp [hp, h0]

/-- Witness for C3: a single-frame `NoOp` reader at a frame boundary
reinitializes, runs, and finishes. -/
theorem c3_reader_frame_protocol_witness :
    (readStep NoOp (⟨⟨[], [4, 5]⟩, (), false, true, true⟩ : ReaderState Unit) 3).2.2 =
      [OpEvent.reinitEv, OpEvent.runEv 2] ∧
    (readStep NoOp (⟨⟨[], [4, 5]⟩, (), false, true, true⟩ : ReaderState Unit) 3).1.finishedFrame =
      decide (0 = 0) ∧
    (readStep NoOp (⟨⟨[], [4, 5]⟩, (), false, true, true⟩ : ReaderState Unit) 3).1.finished =
      ((decide (0 = 0) && true) || false) :=
  c3_reader_frame_protocol NoOp ⟨⟨[], [4, 5]⟩, (), false, true, true⟩ 3
    () () ⟨[4, 5], 2⟩ ⟨[4, 5], 3⟩ 0 rfl (by decide) rfl rfl

/-- C9: when `read_skippable_frame` finds a non-skippable magic it fails
with the `UnsupportedFrame` error and the source's net movement is zero
(the 8 header bytes are seeked back); likewise, when the destination is too
small for the content it fails with `BufferTooSmall` and the source is
rewound to the frame start. -/
theorem c9_skippable_rewind (c : Cursor) (destLen : Nat)
    (h8 : 8 ≤ (c.data.drop c.pos).length) :
    (isSkippableMagic (u32le ((c.data.drop c.pos).take 4)) = false →
      readSkippableFrame c destLen = (c, Except.error unsupportedFrameErr)) ∧
    (isSkippableMagic (u32le ((c.data.drop c.pos).take 4)) = true →
      destLen < u32le ((c.data.drop (c.pos + 4)).take 4) →
      readSkippableFrame c destLen = (c, Except.error bufferTooSmallErr)) := by
  have hlen : c.pos + 8 ≤ c.data.length := by
    rw [List.length_drop] at h8
    omega
  have h1 : ((c.data.drop c.pos).take 4).length = 4 := by
    rw [List.length_take, List.length_drop]
    omega
  have h2 : ((c.data.drop (c.pos + 4)).take 4).length = 4 := by
    rw [List.length_take, List.length_drop]
    omega
  have hc : seekBack { c with pos := c.pos + 4 + 4 } 8 = c := by
    obtain ⟨d, p⟩ := c
    have hp : p + 4 + 4 - 8 = p := by omega
    simp [seekBack, hp]
  constructor
  · intro hm
    simp [readSkippableFrame, readExactOrSeekBack, h1, h2, hm, hc]
  · intro hm hlt
    simp [readSkippableFrame, readExactOrSeekBack, h1, h2, hm, hlt, hc,
      Nat.not_lt_of_lt hlt]

/-- Witness for C9: a non-skippable magic leaves the cursor exactly where
it started. -/
theorem c9_skippable_rewind_witness :
    readSkippableFrame ⟨[5, 5, 5, 5, 3, 0, 0, 0, 1, 2, 3], 0⟩ 10 =
      (⟨[5, 5, 5, 5, 3, 0, 0, 0, 1, 2, 3], 0⟩, Except.error unsupportedFrameErr) :=
  (c9_skippable_rewind ⟨[5, 5, 5, 5, 3, 0, 0, 0, 1, 2, 3], 0⟩ 10 (by decide)).1 (by decide)

/-- A successful `write_from_offset` pass leaves the offset at or past the
end of the staging buffer (the buffer is fully drained). -/
theorem writeFromOffsetGo_none_drained (rs : List SinkResp) (w buffer : List Nat)
    (offset : Nat) (rs' : List SinkResp) (w' : List Nat) (off' : Nat)
    (h : writeFromOffsetGo rs w buffer offset = (rs', w', off', none)) :
    buffer.length ≤ off' := by
  induction rs generalizing w offset with
  | nil =>
    unfold writeFromOffsetGo at h
    by_cases hlt : offset < buffer.length
    · rw [if_pos hlt] at h
      cases h
      exact Nat.le_refl _
    · rw [if_neg hlt] at h
      cases h
      omega
  | cons r rs ih =>
    unfold writeFromOffsetGo at h
    by_cases hlt : offset < buffer.length
    · rw [if_pos hlt] at h
      cases r with
      | accept n =>
        dsimp only at h
        by_cases hk : min n (buffer.drop offset).length = 0
        · rw [if_pos hk] at h
          cases h
        · rw [if_neg hk] at h
          exact ih _ _ h
      | fail e =>
        dsimp only at h
        by_cases hi : e.kind = ErrorKind.interrupted
        · rw [if_pos hi] at h
          exact ih _ _ h
        · rw [if_neg hi] at h
          cases h
    · rw [if_neg hlt] at h
      cases h
      omega

/-- `write_from_offset` on an already-drained buffer touches nothing. -/
theorem writeFromOffsetGo_drained (rs : List SinkResp) (w buffer : List Nat)
    (offset : Nat) (h : buffer.length ≤ offset) :
    writeFromOffsetGo rs w buffer offset = (rs, w, offset, none) := by
  have hnl : ¬ offset < buffer.length := by omega
  cases rs with
  | nil => unfold writeFromOffsetGo; rw [if_neg hnl]
  | cons r rs => unfold writeFromOffsetGo; rw [if_neg hnl]

/-- A `write_from_offset` pass that returns without error leaves the
staging buffer fully drained, whatever the sink's responses. -/
theorem writeFromOffsetGo_none_le (rs : List SinkResp) (w buffer : List Nat)
    (offset : Nat) (rs' : List SinkResp) (w' : List Nat) (off' : Nat)
    (h : writeFromOffsetGo rs w buffer offset = (rs', w', off', none)) :
    buffer.length ≤ off' := by
  induction rs generalizing w offset with
  | nil =>
    unfold writeFromOffsetGo at h
    by_cases hlt : offset < buffer.length
    · rw [if_pos hlt] at h
      cases h
      exact Nat.le_refl _
    · rw [if_neg hlt] at h
      cases h
      omega
  | cons r rs ih =>
    unfold writeFromOffsetGo at h
    by_cases hlt : offset < buffer.length
    · rw [if_pos hlt] at h
      cases r with
      | accept n =>
        dsimp only at h
        by_cases hk : min n (buffer.drop offset).length = 0
        · rw [if_pos hk] at h
          cases h
        · rw [if_neg hk] at h
          exact ih _ _ h
      | fail e =>
        dsimp only at h
        by_cases hi : e.kind = ErrorKind.interrupted
        · rw [if_pos hi] at h
          exact ih _ _ h
        · rw [if_neg hi] at h
          cases h
    · rw [if_neg hlt] at h
      cases h
      omega

/-- `write_from_offset` on an already-drained staging buffer does nothing:
no sink interaction, state unchanged, no error. -/
theorem writeFromOffset_id (st : WriterState σ) (h : st.buffer.length ≤ st.offset) :
    st.writeFromOffset = (st, none) := by
  obtain ⟨⟨rs, w⟩, os, off, b, f, ffr, wf⟩ := st
  dsimp only at h
  have hnl : ¬ off < b.length := by omega
  cases rs with
  | nil =>
    simp only [WriterState.writeFromOffset, writeFromOffsetGo, if_neg hnl]
  | cons r rs =>
    simp only [WriterState.writeFromOffset, writeFromOffsetGo, if_neg hnl]

/-- A successful `write_from_offset` changes only the sink and the offset:
the staging buffer, operation state and flags survive, and the final offset
covers the whole buffer. -/
theorem writeFromOffset_none_facts (st st1 : WriterState σ)
    (h : st.writeFromOffset = (st1, none)) :
    st1.buffer = st.buffer ∧ st1.buffer.length ≤ st1.offset ∧
    st1.opState = st.opState ∧ st1.finished = st.finished ∧
    st1.finishedFrame = st.finishedFrame ∧ st1.writingFrame = st.writingFrame := by
  unfold WriterState.writeFromOffset at h
  rcases hgo : writeFromOffsetGo st.sink.resps st.sink.written st.buffer st.offset
    with ⟨rs', w', off', err⟩
  rw [hgo] at h
  dsimp only at h
  injection h with h1 h2
  subst h1
  subst h2
  refine ⟨rfl, ?_, rfl, rfl, rfl, rfl⟩
  exact writeFromOffsetGo_none_le _ _ _ _ _ _ _ hgo

/-- After `Writer::finish` returns `Ok(())`, the writer is finished, its
`writing_frame` flag is cleared, and its staging buffer is drained. -/
theorem writerFinish_ok_post (op : Operation σ) (fuel : Nat) (st st' : WriterState σ)
    (evs : List OpEvent) (h : writerFinish op fuel st = some (st', Except.ok (), evs)) :
    st'.finished = true ∧ st'.writingFrame = false ∧ st'.buffer.length ≤ st'.offset := by
  induction fuel generalizing st evs with
  | zero => cases h
  | succ fuel ih =>
    unfold writerFinish at h
    rcases hw : st.writeFromOffset with ⟨st1, oe⟩
    rw [hw] at h
    cases oe with
    | some e => cases h
    | none =>
      dsimp only at h
      obtain ⟨hbuf, hdr, _, _, _, _⟩ := writeFromOffset_none_facts st st1 hw
      by_cases hf : st1.finished
      · rw [if_pos hf] at h
        injection h with h1
        injection h1 with h2 h3
        subst h2
        exact ⟨hf, rfl, hdr⟩
      · rw [if_neg hf] at h
        cases hfin : op.finish st1.opState (OutBuffer.fresh bufCapacity) st1.finishedFrame with
        | error e => rw [hfin] at h; cases h
        | ok t =>
          obtain ⟨s', dst, hint⟩ := t
          rw [hfin] at h
          dsimp only at h
          by_cases hh : hint ≠ 0 ∧ dst.written = []
          · rw [if_pos hh] at h
            cases h
          · rw [if_neg hh] at h
            rcases hrec : writerFinish op fuel
                { st1 with opState := s', buffer := dst.written, offset := 0,
                           finished := hint = 0 }
              with _ | ⟨st2, r2, evs2⟩
            · rw [hrec] at h
              cases h
            · rw [hrec] at h
              dsimp only [Option.map] at h
              injection h with h1
              injection h1 with h2 h3
              subst h2
              cases r2 with
              | error e => cases h3
              | ok u =>
                cases u
                exact ih _ _ hrec

/-- C6: after `Writer::finish` (`do_finish`) has once returned `Ok(())`,
every subsequent call returns `Ok(())` with the state unchanged: no call to
the operation's `finish` (empty event trace) and no further bytes written
to the underlying sink. -/
theorem c6_finish_idempotent (op : Operation σ) (fuel : Nat) (st st' : WriterState σ)
    (evs : List OpEvent)
    (h : writerFinish op fuel st = some (st', Except.ok (), evs)) (fuel' : Nat) :
    writerFinish op (fuel' + 1) st' = some (st', Except.ok (), []) := by
  obtain ⟨hfin, hwf, hdr⟩ := writerFinish_ok_post op fuel st st' evs h
  unfold writerFinish
  rw [writeFromOffset_id st' hdr]
  dsimp only
  rw [if_pos hfin]
  have hst : { st' with writingFrame := false } = st' := by
    obtain ⟨sk, os, off, b, f, ffr, wf⟩ := st'
    dsimp only at hwf
    subst hwf
    rfl
  rw [hst]

/-- Witness for C6: finishing a fresh `NoOp` writer once, then again. -/
theorem c6_finish_idempotent_witness :
    writerFinish NoOp 2 (writerNew ⟨[], []⟩ ()) =
      some (⟨⟨[], []⟩, (), 0, [], true, false, false⟩, Except.ok (), [OpEvent.finishEv]) ∧
    writerFinish NoOp 1 ⟨⟨[], []⟩, (), 0, [], true, false, false⟩ =
      some (⟨⟨[], []⟩, (), 0, [], true, false, false⟩, Except.ok (), []) :=
  ⟨rfl, c6_finish_idempotent NoOp 2 (writerNew ⟨[], []⟩ ())
    ⟨⟨[], []⟩, (), 0, [], true, false, false⟩ [OpEvent.finishEv] rfl 0⟩

/-- `consumedSum` distributes over trace concatenation. -/
theorem consumedSum_append (a b : List OpEvent) :
    consumedSum (a ++ b) = consumedSum a + consumedSum b := by
  induction a with
  | nil => simp [consumedSum]
  | cons e a ih =>
    cases e <;> simp [consumedSum, List.foldr_cons] at ih ⊢ <;> omega

/-- The reinit phase makes no `run` call: its trace consumes nothing. -/
theorem writerReinitPhase_consumed (op : Operation σ) (st st2 : WriterState σ)
    (evs : List OpEvent) (h : writerReinitPhase op st = Except.ok (st2, evs)) :
    consumedSum evs = 0 := by
  unfold writerReinitPhase at h
  by_cases hff : st.finishedFrame
  · rw [if_pos hff] at h
    cases hre : op.reinit st.opState with
    | error e => rw [hre] at h; cases h
    | ok s0 =>
      rw [hre] at h
      injection h with h1
      injection h1 with h2 h3
      subst h3
      rfl
  · rw [if_neg hff] at h
    injection h with h1
    injection h1 with h2 h3
    subst h3
    rfl

/-- The write loop returns an error only while nothing of the caller's
input has been consumed, and returns `Ok(k)` exactly when its `run` calls
consumed `k` bytes — positive unless `buf` is empty. -/
theorem writerWriteLoop_progress (op : Operation σ) (buf : List Nat) (fuel : Nat)
    (st st' : WriterState σ) (res : Except IOError Nat) (evs : List OpEvent)
    (h : writerWriteLoop op buf fuel st = some (st', res, evs)) :
    (∀ e, res = Except.error e → consumedSum evs = 0) ∧
    (∀ k, res = Except.ok k → consumedSum evs = k ∧ (buf = [] ∨ 0 < k)) := by
  induction fuel generalizing st evs with
  | zero => cases h
  | succ fuel ih =>
    unfold writerWriteLoop at h
    rcases hw : st.writeFromOffset with ⟨st1, oe⟩
    rw [hw] at h
    cases oe with
    | some e =>
      dsimp only at h
      injection h with h1
      injection h1 with h2 h3
      injection h3 with h4 h5
      subst h4
      subst h5
      exact ⟨fun _ _ => rfl, fun k hk => by cases hk⟩
    | none =>
      dsimp only at h
      cases hpre : writerReinitPhase op st1 with
      | error e =>
        rw [hpre] at h
        dsimp only at h
        injection h with h1
        injection h1 with h2 h3
        injection h3 with h4 h5
        subst h4
        subst h5
        exact ⟨fun _ _ => rfl, fun k hk => by cases hk⟩
      | ok t =>
        obtain ⟨st2, evs0⟩ := t
        have hc0 : consumedSum evs0 = 0 :=
          writerReinitPhase_consumed op st1 st2 evs0 hpre
        rw [hpre] at h
        dsimp only at h
        cases hrun : op.run st2.opState (InBuffer.around buf) (OutBuffer.fresh bufCapacity) with
        | error e =>
          rw [hrun] at h
          dsimp only at h
          injection h with h1
          injection h1 with h2 h3
          injection h3 with h4 h5
          subst h4
          subst h5
          refine ⟨fun _ _ => ?_, fun k hk => by cases hk⟩
          rw [consumedSum_append, hc0]
          simp [consumedSum]
        | ok t2 =>
          obtain ⟨s', src', dst', hint⟩ := t2
          rw [hrun] at h
          dsimp only at h
          by_cases hret : src'.pos > 0 ∨ buf = []
          · rw [if_pos hret] at h
            injection h with h1
            injection h1 with h2 h3
            injection h3 with h4 h5
            subst h4
            subst h5
            constructor
            · intro e he
              cases he
            · intro k hk
              injection hk with hk1
              subst hk1
              constructor
              · rw [consumedSum_append, hc0]
                simp [consumedSum]
              · exact Or.symm hret
          · rw [if_neg hret] at h
            rcases hrec : writerWriteLoop op buf fuel
                (if hint = 0 then
                  { st2 with opState := s', buffer := dst'.written, offset := 0,
                             finishedFrame := true }
                 else { st2 with opState := s', buffer := dst'.written, offset := 0 })
              with _ | ⟨st3, r3, evs3⟩
            · rw [hrec] at h
              cases h
            · rw [hrec] at h
              dsimp only [Option.map] at h
              injection h with h1
              injection h1 with h2 h3
              injection h3 with h4 h5
              subst h2
              subst h4
              subst h5
              have hpos : src'.pos = 0 := by
                rcases Nat.eq_zero_or_pos src'.pos with h0 | h0
                · exact h0
                · exact absurd (Or.inl h0) hret
              obtain ⟨ihe, iho⟩ := ih _ _ hrec
              constructor
              · intro e he
                rw [consumedSum_append, consumedSum_append, hc0, ihe e he, hpos]
                simp [consumedSum]
              · intro k hk
                obtain ⟨ih1, ih2⟩ := iho k hk
                refine ⟨?_, ih2⟩
                rw [consumedSum_append, consumedSum_append, hc0, ih1, hpos]
                simp [consumedSum]

/-- C7: whenever `Writer::write(buf)` returns an error (in particular one
of kind `WouldBlock`), zero bytes of the caller's input were consumed by
the operation during that call; conversely, once any input byte has been
consumed the call returns `Ok(bytes_read)` rather than an error (with
`bytes_read` positive unless `buf` was empty). -/
theorem c7_write_would_block_no_consume (op : Operation σ) (buf : List Nat)
    (fuel : Nat) (st st' : WriterState σ) (res : Except IOError Nat)
    (evs : List OpEvent)
    (h : writerWrite op fuel st buf = some (st', res, evs)) :
    (∀ e, res = Except.error e → consumedSum evs = 0) ∧
    (∀ k, res = Except.ok k → consumedSum evs = k ∧ (buf = [] ∨ 0 < k)) :=
  writerWriteLoop_progress op buf fuel _ st' res evs h

/-- Witness for C7: a concrete `NoOp` write of two bytes. -/
theorem c7_write_would_block_no_consume_witness :
    (∀ e, (Except.ok 2 : Except IOError Nat) = Except.error e →
      consumedSum [OpEvent.runEv 2] = 0) ∧
    (∀ k, (Except.ok 2 : Except IOError Nat) = Except.ok k →
      consumedSum [OpEvent.runEv 2] = k ∧ (([5, 6] : List Nat) = [] ∨ 0 < k)) :=
  c7_write_would_block_no_consume NoOp [5, 6] 1 (writerNew ⟨[], []⟩ ())
    ⟨⟨[], []⟩, (), 0, [5, 6], false, true, true⟩ (Except.ok 2) [OpEvent.runEv 2] rfl

/-- Draining an empty-scripted sink (a `Vec`) accepts the whole buffer in
one pass. -/
theorem writeFromOffsetGo_vec (w b : List Nat) :
    writeFromOffsetGo [] w b 0 = ([], w ++ b, b.length, none) := by
  cases b with
  | nil => simp [writeFromOffsetGo]
  | cons x xs => simp [writeFromOffsetGo]

/-- One `Writer::write` call on the model encoder consumes the whole input
while the engine buffers it internally. -/
theorem encOp_write_step (f level : Nat) (cur w : List Nat) (wf : Bool)
    (buf : List Nat) (hb : buf ≠ []) :
    writerWrite encOp (f + 1) ⟨⟨[], w⟩, ⟨level, cur, none⟩, 0, [], false, false, wf⟩ buf =
      some (⟨⟨[], w⟩, ⟨level, cur ++ buf, none⟩, 0, [], false, false, true⟩,
            Except.ok buf.length, [OpEvent.runEv buf.length]) := by
  have hlen : 0 < buf.length := List.length_pos.mpr hb
  simp [writerWrite, writerWriteLoop, WriterState.writeFromOffset, writeFromOffsetGo,
    writerReinitPhase, encOp, Encoder.op, modelCEngine, Except.mapError,
    InBuffer.around, OutBuffer.fresh, hlen]

/-- `write_all` of a non-empty chunk on the model encoder. -/
theorem encOp_writeAll (f g level : Nat) (cur w : List Nat) (wf : Bool)
    (buf : List Nat) (hb : buf ≠ []) :
    writeAllW encOp (f + 1) (g + 2) ⟨⟨[], w⟩, ⟨level, cur, none⟩, 0, [], false, false, wf⟩ buf =
      some (⟨⟨[], w⟩, ⟨level, cur ++ buf, none⟩, 0, [], false, false, true⟩, Except.ok ()) := by
  cases buf with
  | nil => exact absurd rfl hb
  | cons x xs =>
    have hstep := encOp_write_step f level cur w wf (x :: xs) hb
    unfold writeAllW
    rw [hstep]
    simp only [List.isEmpty_cons, List.length_cons]
    unfold writeAllW
    simp

/-- `io::copy` into the model encoder accumulates exactly the source in the
engine session. -/
theorem encOp_copy (f level : Nat) : ∀ (fuel : Nat) (src cur w : List Nat) (wf : Bool),
    src.length + 1 ≤ fuel →
    ∃ wf', ioCopyW encOp (f + 1) fuel
        ⟨⟨[], w⟩, ⟨level, cur, none⟩, 0, [], false, false, wf⟩ src =
      some (⟨⟨[], w⟩, ⟨level, cur ++ src, none⟩, 0, [], false, false, wf'⟩, Except.ok ()) := by
  intro fuel
  induction fuel with
  | zero => intro src cur w wf h; omega
  | succ fl ih =>
    intro src cur w wf h
    cases src with
    | nil =>
      refine ⟨wf, ?_⟩
      unfold ioCopyW
      simp
    | cons x xs =>
      have hlen : (x :: xs).length + 1 = xs.length + 2 := by simp
      have hch : ((x :: xs).take 8192) ≠ [] := by simp
      unfold ioCopyW
      simp only [List.isEmpty_cons, Bool.false_eq_true, if_false]
      rw [hlen, encOp_writeAll f xs.length level cur w wf _ hch]
      have hrec := ih ((x :: xs).drop 8192) (cur ++ (x :: xs).take 8192) w true (by
        simp only [List.length_drop, List.length_cons] at h ⊢
        omega)
      obtain ⟨wf', hrec⟩ := hrec
      refine ⟨wf', ?_⟩
      dsimp only
      rw [hrec]
      rw [List.append_assoc, List.take_append_drop]

/-- `write_from_offset` with an empty-scripted sink, at the state level. -/
theorem writeFromOffset_vec (c : CState) (w b : List Nat) (off : Nat)
    (f1 f2 f3 : Bool) (hoff : off = 0) :
    WriterState.writeFromOffset ⟨⟨[], w⟩, c, off, b, f1, f2, f3⟩ =
      (⟨⟨[], w ++ b⟩, c, b.length, b, f1, f2, f3⟩, none) := by
  subst hoff
  simp [WriterState.writeFromOffset, writeFromOffsetGo_vec]

/-- The model engine's `endStream` when the whole pending frame fits the
output window. -/
theorem modelC_endStream_small (c : CState) (cap : Nat)
    (hle : c.pendingEff.length ≤ cap) :
    modelCEngine.endStream c (OutBuffer.fresh cap) =
      Except.ok (⟨c.level, [], none⟩, ⟨c.pendingEff, cap⟩, 0) := by
  have hk : min c.pendingEff.length
      ((OutBuffer.fresh cap).cap - (OutBuffer.fresh cap).pos) = c.pendingEff.length := by
    simp only [OutBuffer.fresh, OutBuffer.pos, List.length_nil, Nat.sub_zero]
    omega
  simp only [modelCEngine]
  rw [hk]
  simp [OutBuffer.write, OutBuffer.fresh]

/-- The model engine's `endStream` when the pending frame overflows the
output window: fill it and report the remainder. -/
theorem modelC_endStream_large (c : CState) (cap : Nat)
    (hgt : cap < c.pendingEff.length) :
    modelCEngine.endStream c (OutBuffer.fresh cap) =
      Except.ok (⟨c.level, [], some (c.pendingEff.drop cap)⟩,
                 ⟨c.pendingEff.take cap, cap⟩,
                 (c.pendingEff.drop cap).length) := by
  have hk : min c.pendingEff.length
      ((OutBuffer.fresh cap).cap - (OutBuffer.fresh cap).pos) = cap := by
    simp only [OutBuffer.fresh, OutBuffer.pos, List.length_nil, Nat.sub_zero]
    omega
  have hre : (c.pendingEff.drop cap).isEmpty = false := by
    cases hdrop : c.pendingEff.drop cap with
    | nil =>
      exfalso
      have := congrArg List.length hdrop
      simp only [List.length_drop, List.length_nil] at this
      omega
    | cons a l => rfl
  simp only [modelCEngine]
  rw [hk]
  simp [hre, OutBuffer.write, OutBuffer.fresh]

/-- `Writer::finish` on the model encoder drains the whole pending frame to
the sink, one staging-buffer load at a time, and ends `Ok(())`. -/
theorem encOp_finish_drain : ∀ (fuel : Nat) (c : CState) (b w : List Nat) (ff wf : Bool),
    c.pendingEff.length + 2 ≤ fuel →
    ∃ st' evs, writerFinish encOp fuel ⟨⟨[], w⟩, c, 0, b, false, ff, wf⟩ =
        some (st', Except.ok (), evs) ∧ st'.sink.written = w ++ b ++ c.pendingEff := by
  intro fuel
  induction fuel with
  | zero => intro c b w ff wf h; omega
  | succ fl ih =>
    intro c b w ff wf h
    unfold writerFinish
    rw [writeFromOffset_vec c w b 0 false ff wf rfl]
    dsimp only
    simp only [Bool.false_eq_true, if_false]
    by_cases hle : c.pendingEff.length ≤ bufCapacity
    · have hfin : encOp.finish c (OutBuffer.fresh bufCapacity) ff =
          Except.ok (⟨c.level, [], none⟩, ⟨c.pendingEff, bufCapacity⟩, 0) := by
        show (modelCEngine.endStream c (OutBuffer.fresh bufCapacity)).mapError engineErr = _
        rw [modelC_endStream_small c bufCapacity hle]
        rfl
      rw [hfin]
      dsimp only
      simp only [ne_eq, not_true_eq_false, false_and, if_false, decide_True]
      obtain ⟨fl2, rfl⟩ : ∃ fl2, fl = fl2 + 1 := ⟨fl - 1, by omega⟩
      unfold writerFinish
      rw [writeFromOffset_vec ⟨c.level, [], none⟩ (w ++ b) c.pendingEff 0 true ff wf rfl]
      dsimp only
      rw [if_pos rfl]
      dsimp only [Option.map]
      refine ⟨_, _, rfl, ?_⟩
      simp [List.append_assoc]
    · have hgt : bufCapacity < c.pendingEff.length := by omega
      have hfin : encOp.finish c (OutBuffer.fresh bufCapacity) ff =
          Except.ok (⟨c.level, [], some (c.pendingEff.drop bufCapacity)⟩,
                     ⟨c.pendingEff.take bufCapacity, bufCapacity⟩,
                     (c.pendingEff.drop bufCapacity).length) := by
        show (modelCEngine.endStream c (OutBuffer.fresh bufCapacity)).mapError engineErr = _
        rw [modelC_endStream_large c bufCapacity hgt]
        rfl
      rw [hfin]
      dsimp only
      have hcond : ¬ ((c.pendingEff.drop bufCapacity).length ≠ 0 ∧
          c.pendingEff.take bufCapacity = []) := by
        intro hand
        have h2 := congrArg List.length hand.2
        simp only [List.length_take, List.length_nil] at h2
        have : bufCapacity = 0 ∨ c.pendingEff.length = 0 := by omega
        rcases this with h3 | h3
        · simp [bufCapacity] at h3
        · omega
      rw [if_neg hcond]
      have hdec : decide ((c.pendingEff.drop bufCapacity).length = 0) = false := by
        simp only [List.length_drop, decide_eq_false_iff_not]
        omega
      rw [hdec]
      have hrec := ih ⟨c.level, [], some (c.pendingEff.drop bufCapacity)⟩
        (c.pendingEff.take bufCapacity) (w ++ b) ff wf (by
          show (c.pendingEff.drop bufCapacity).length + 2 ≤ fl
          have hcap : 0 < bufCapacity := by norm_num [bufCapacity]
          simp only [List.length_drop]
          omega)
      obtain ⟨st2, evs, hrec, hwr⟩ := hrec
      rw [hrec]
      refine ⟨st2, OpEvent.finishEv :: evs, rfl, ?_⟩
      rw [hwr]
      show (w ++ b) ++ c.pendingEff.take bufCapacity ++ c.pendingEff.drop bufCapacity =
        w ++ b ++ c.pendingEff
      rw [List.append_assoc (w ++ b), List.take_append_drop]

/-- `encode_all` on the model engine produces exactly the model frame of
the input. -/
theorem encode_all_frame (s : List Nat) (level : Nat) :
    encode_all s level = some (Except.ok (frameBytes s)) := by
  obtain ⟨wf', hcopy⟩ := encOp_copy s.length level (s.length + 1) s [] [] false (by omega)
  simp only [List.nil_append] at hcopy
  obtain ⟨st', evs, hfin, hwr⟩ := encOp_finish_drain (s.length + 4) ⟨level, s, none⟩
    [] [] false wf' (by
      show (frameBytes s).length + 2 ≤ s.length + 4
      simp [frameBytes])
  unfold encode_all
  simp only [writerNew]
  rw [hcopy]
  dsimp only
  rw [hfin]
  dsimp only
  rw [hwr]
  simp [CState.pendingEff]

/-- A read on the model decoder at EOF with the frame finished: `finish`
reports 0, the reader latches `finished` and returns `Ok(0)`. -/
theorem decOp_read_eof (f : Nat) :
    readerRead decOp (f + 1) ⟨⟨[], []⟩, ⟨[], none⟩, false, false, true⟩ 8192 =
      some (⟨⟨[], []⟩, ⟨[], none⟩, true, false, true⟩, Except.ok [],
            [OpEvent.finishEv]) := rfl

/-- A read on the model decoder mid-frame when the remaining content fits
the caller's 8192-byte window: the frame completes in one step. -/
theorem decOp_read_content_small (m : Nat) (rest : List Nat) (f : Nat)
    (hm : rest.length = m) (h0 : 0 < m) (hle : m ≤ 8192) :
    readerRead decOp (f + 1) ⟨⟨[], rest⟩, ⟨[], some m⟩, false, false, false⟩ 8192 =
      some (⟨⟨[], []⟩, ⟨[], none⟩, false, false, true⟩, Except.ok rest,
            [OpEvent.runEv m]) := by
  have hne : rest.isEmpty = false := by
    cases rest with
    | nil => simp at hm; omega
    | cons a l => rfl
  have hk : min m (min (rest.drop 0).length
      ((OutBuffer.fresh 8192).cap - (OutBuffer.fresh 8192).pos)) = m := by
    simp only [List.drop_zero, OutBuffer.fresh, OutBuffer.pos, List.length_nil, Nat.sub_zero, hm]
    omega
  have htk : rest.take m = rest := by
    rw [← hm]
    exact List.take_length rest
  have hdr : rest.drop m = [] := by
    rw [← hm]
    exact List.drop_length rest
  simp only [readerRead, Bool.false_eq_true, if_false]
  unfold readLoop
  have hstep : readStep decOp ⟨⟨[], rest⟩, ⟨[], some m⟩, false, false, false⟩ 8192 =
      (⟨⟨[], []⟩, ⟨[], none⟩, false, false, true⟩, StepRes.ret (Except.ok rest),
       [OpEvent.runEv m]) := by
    simp only [readStep, BufSource.fillBuf, hne, readTail, decOp, Decoder.op,
      modelDEngine, dContentStep, Except.mapError, InBuffer.around,
      Bool.false_eq_true, if_false]
    rw [hk]
    simp [htk, hdr, BufSource.consume, OutBuffer.write, OutBuffer.pos, OutBuffer.fresh, hm, h0]
  rw [hstep]

/-- A read on the model decoder mid-frame when the remaining content
overflows the caller's window: deliver 8192 bytes and stay in the frame. -/
theorem decOp_read_content_large (m : Nat) (rest : List Nat) (f : Nat)
    (hm : rest.length = m) (hgt : 8192 < m) :
    readerRead decOp (f + 1) ⟨⟨[], rest⟩, ⟨[], some m⟩, false, false, false⟩ 8192 =
      some (⟨⟨[], rest.drop 8192⟩, ⟨[], some (m - 8192)⟩, false, false, false⟩,
            Except.ok (rest.take 8192), [OpEvent.runEv 8192]) := by
  have hne : rest.isEmpty = false := by
    cases rest with
    | nil => simp at hm; omega
    | cons a l => rfl
  have hk : min m (min (rest.drop 0).length
      ((OutBuffer.fresh 8192).cap - (OutBuffer.fresh 8192).pos)) = 8192 := by
    simp only [List.drop_zero, OutBuffer.fresh, OutBuffer.pos, List.length_nil, Nat.sub_zero, hm]
    omega
  have hm0 : ¬ (m - 8192 = 0) := by omega
  have hpos : 0 < (rest.take 8192).length := by
    simp only [List.length_take]
    omega
  simp only [readerRead, Bool.false_eq_true, if_false]
  unfold readLoop
  have hstep : readStep decOp ⟨⟨[], rest⟩, ⟨[], some m⟩, false, false, false⟩ 8192 =
      (⟨⟨[], rest.drop 8192⟩, ⟨[], some (m - 8192)⟩, false, false, false⟩,
       StepRes.ret (Except.ok (rest.take 8192)), [OpEvent.runEv 8192]) := by
    simp only [readStep, BufSource.fillBuf, hne, readTail, decOp, Decoder.op,
      modelDEngine, dContentStep, Except.mapError, InBuffer.around,
      Bool.false_eq_true, if_false]
    rw [hk]
    have hrne : ¬ rest = [] := by
      intro hcon
      rw [hcon] at hm
      simp at hm
      omega
    simp [hm0, BufSource.consume, OutBuffer.write, OutBuffer.pos, OutBuffer.fresh, hpos, hrne]
  rw [hstep]

/-- Reading everything from a mid-frame model decoder delivers the rest of
the content, 8192 bytes per read, and ends cleanly at EOF. -/
theorem decOp_readAll_content : ∀ (fuel m : Nat) (rest acc : List Nat),
    rest.length = m → 0 < m → m + 2 ≤ fuel →
    readAllR decOp 2 fuel ⟨⟨[], rest⟩, ⟨[], some m⟩, false, false, false⟩ acc =
      some (⟨⟨[], []⟩, ⟨[], none⟩, true, false, true⟩, Except.ok (acc ++ rest)) := by
  intro fuel
  induction fuel with
  | zero => intro m rest acc hm h0 hf; omega
  | succ fl ih =>
    intro m rest acc hm h0 hf
    have hne : rest.isEmpty = false := by
      cases rest with
      | nil => simp at hm; omega
      | cons a l => rfl
    unfold readAllR
    by_cases hle : m ≤ 8192
    · have hr2 : readerRead decOp 2 ⟨⟨[], rest⟩, ⟨[], some m⟩, false, false, false⟩ 8192 =
          some (⟨⟨[], []⟩, ⟨[], none⟩, false, false, true⟩, Except.ok rest,
                [OpEvent.runEv m]) :=
        decOp_read_content_small m rest 1 hm h0 hle
      rw [hr2]
      dsimp only
      simp only [hne, Bool.false_eq_true, if_false]
      obtain ⟨fl2, rfl⟩ : ∃ fl2, fl = fl2 + 1 := ⟨fl - 1, by omega⟩
      unfold readAllR
      have he : readerRead decOp 2 ⟨⟨[], []⟩, ⟨[], none⟩, false, false, true⟩ 8192 =
          some (⟨⟨[], []⟩, ⟨[], none⟩, true, false, true⟩, Except.ok [],
                [OpEvent.finishEv]) :=
        decOp_read_eof 1
      rw [he]
      rfl
    · have hr2 : readerRead decOp 2 ⟨⟨[], rest⟩, ⟨[], some m⟩, false, false, false⟩ 8192 =
          some (⟨⟨[], rest.drop 8192⟩, ⟨[], some (m - 8192)⟩, false, false, false⟩,
                Except.ok (rest.take 8192), [OpEvent.runEv 8192]) :=
        decOp_read_content_large m rest 1 hm (by omega)
      rw [hr2]
      dsimp only
      have htne : (rest.take 8192).isEmpty = false := by
        cases ht : rest.take 8192 with
        | nil =>
          exfalso
          have := congrArg List.length ht
          simp only [List.length_take, List.length_nil] at this
          omega
        | cons a l => rfl
      simp only [htne, Bool.false_eq_true, if_false]
      rw [ih (m - 8192) (rest.drop 8192) (acc ++ rest.take 8192)
        (by simp [List.length_drop, hm]) (by omega) (by omega)]
      rw [List.append_assoc, List.take_append_drop]

/-- The model decoder's first step on a whole frame window: parse the
2-token header, then enter the content phase. -/
theorem modelD_first_step (s : List Nat) (cap : Nat) :
    modelDEngine.decompressStream ⟨[], none⟩ (InBuffer.around (frameBytes s))
        (OutBuffer.fresh cap) =
      Except.ok (dContentStep s.length ⟨frameBytes s, 2⟩ (OutBuffer.fresh cap)) := by
  have ht : (2 - List.length ([] : List Nat)) ⊓
      ((magicToken :: s.length :: s).drop 0).length = 2 := by
    simp
  simp only [modelDEngine, InBuffer.around, frameBytes]
  rw [ht]
  rw [show List.take 2 ((magicToken :: s.length :: s).drop 0) = [magicToken, s.length]
    from rfl]
  simp

/-- The content phase over a full small frame: everything fits, hint 0. -/
theorem dContentStep_first_small (s : List Nat) (hle : s.length ≤ 8192) :
    dContentStep s.length ⟨frameBytes s, 2⟩ (OutBuffer.fresh 8192) =
      (⟨[], none⟩, ⟨frameBytes s, 2 + s.length⟩, ⟨s, 8192⟩, 0) := by
  have hw : (frameBytes s).drop 2 = s := rfl
  have hk : s.length ⊓ (((frameBytes s).drop 2).length ⊓
      ((OutBuffer.fresh 8192).cap - (OutBuffer.fresh 8192).pos)) = s.length := by
    rw [hw]
    simp only [OutBuffer.fresh, OutBuffer.pos, List.length_nil, Nat.sub_zero]
    omega
  simp only [dContentStep]
  rw [show (⟨frameBytes s, 2⟩ : InBuffer).src.drop (⟨frameBytes s, 2⟩ : InBuffer).pos =
      (frameBytes s).drop 2 from rfl]
  rw [hk]
  simp [hw, OutBuffer.write, OutBuffer.fresh]

/-- The content phase over a large frame: fill the 8192-byte window. -/
theorem dContentStep_first_large (s : List Nat) (hgt : 8192 < s.length) :
    dContentStep s.length ⟨frameBytes s, 2⟩ (OutBuffer.fresh 8192) =
      (⟨[], some (s.length - 8192)⟩, ⟨frameBytes s, 2 + 8192⟩, ⟨s.take 8192, 8192⟩, 1) := by
  have hw : (frameBytes s).drop 2 = s := rfl
  have hk : s.length ⊓ (((frameBytes s).drop 2).length ⊓
      ((OutBuffer.fresh 8192).cap - (OutBuffer.fresh 8192).pos)) = 8192 := by
    rw [hw]
    simp only [OutBuffer.fresh, OutBuffer.pos, List.length_nil, Nat.sub_zero]
    omega
  have hz : ¬ (s.length - 8192 = 0) := by omega
  simp only [dContentStep]
  rw [show (⟨frameBytes s, 2⟩ : InBuffer).src.drop (⟨frameBytes s, 2⟩ : InBuffer).pos =
      (frameBytes s).drop 2 from rfl]
  rw [hk]
  simp [hw, hz, OutBuffer.write, OutBuffer.fresh]

/-- The first read on a fresh model decoder over a whole small frame:
header parsed, all content delivered, frame flagged finished. -/
theorem decOp_read_first_small (s : List Nat) (f : Nat) (h0 : s ≠ [])
    (hle : s.length ≤ 8192) :
    readerRead decOp (f + 1)
        ⟨⟨[], frameBytes s⟩, ⟨[], none⟩, false, false, false⟩ 8192 =
      some (⟨⟨[], []⟩, ⟨[], none⟩, false, false, true⟩, Except.ok s,
            [OpEvent.runEv (2 + s.length)]) := by
  have hpos : 0 < s.length := List.length_pos.mpr h0
  have hrun : decOp.run ⟨[], none⟩ (InBuffer.around (frameBytes s)) (OutBuffer.fresh 8192) =
      Except.ok (⟨[], none⟩, ⟨frameBytes s, 2 + s.length⟩, ⟨s, 8192⟩, 0) := by
    show (modelDEngine.decompressStream ⟨[], none⟩ (InBuffer.around (frameBytes s))
        (OutBuffer.fresh 8192)).mapError engineErr = _
    rw [modelD_first_step, dContentStep_first_small s hle]
    rfl
  have hne : (frameBytes s).isEmpty = false := rfl
  have hdr2 : (frameBytes s).drop (2 + s.length) = [] := by
    show (magicToken :: s.length :: s).drop (2 + s.length) = []
    have h2 : 2 + s.length = s.length + 1 + 1 := by omega
    rw [h2, List.drop_succ_cons, List.drop_succ_cons, List.drop_length]
  simp only [readerRead, Bool.false_eq_true, if_false]
  unfold readLoop
  have hstep : readStep decOp ⟨⟨[], frameBytes s⟩, ⟨[], none⟩, false, false, false⟩ 8192 =
      (⟨⟨[], []⟩, ⟨[], none⟩, false, false, true⟩, StepRes.ret (Except.ok s),
       [OpEvent.runEv (2 + s.length)]) := by
    simp only [readStep, BufSource.fillBuf, hne, readTail, Bool.false_eq_true, if_false]
    rw [hrun]
    dsimp only
    simp [BufSource.consume, OutBuffer.pos, hdr2, hpos]
  rw [hstep]

/-- The first read on a fresh model decoder over a large frame: header
parsed, first 8192 content bytes delivered, frame still open. -/
theorem decOp_read_first_large (s : List Nat) (f : Nat) (hgt : 8192 < s.length) :
    readerRead decOp (f + 1)
        ⟨⟨[], frameBytes s⟩, ⟨[], none⟩, false, false, false⟩ 8192 =
      some (⟨⟨[], s.drop 8192⟩, ⟨[], some (s.length - 8192)⟩, false, false, false⟩,
            Except.ok (s.take 8192), [OpEvent.runEv (2 + 8192)]) := by
  have hrun : decOp.run ⟨[], none⟩ (InBuffer.around (frameBytes s)) (OutBuffer.fresh 8192) =
      Except.ok (⟨[], some (s.length - 8192)⟩, ⟨frameBytes s, 2 + 8192⟩,
                 ⟨s.take 8192, 8192⟩, 1) := by
    show (modelDEngine.decompressStream ⟨[], none⟩ (InBuffer.around (frameBytes s))
        (OutBuffer.fresh 8192)).mapError engineErr = _
    rw [modelD_first_step, dContentStep_first_large s hgt]
    rfl
  have hne : (frameBytes s).isEmpty = false := rfl
  have hdr2 : (frameBytes s).drop (2 + 8192) = s.drop 8192 := by
    show (magicToken :: s.length :: s).drop (2 + 8192) = s.drop 8192
    rw [show (2 : Nat) + 8192 = 8192 + 1 + 1 from by norm_num]
    rw [List.drop_succ_cons, List.drop_succ_cons]
  have hpos : 0 < (s.take 8192).length := by
    simp only [List.length_take]
    omega
  have hsne : ¬ s = [] := by
    intro hh
    rw [hh] at hgt
    simp at hgt
  simp only [readerRead, Bool.false_eq_true, if_false]
  unfold readLoop
  have hstep : readStep decOp ⟨⟨[], frameBytes s⟩, ⟨[], none⟩, false, false, false⟩ 8192 =
      (⟨⟨[], s.drop 8192⟩, ⟨[], some (s.length - 8192)⟩, false, false, false⟩,
       StepRes.ret (Except.ok (s.take 8192)), [OpEvent.runEv (2 + 8192)]) := by
    simp only [readStep, BufSource.fillBuf, hne, readTail, Bool.false_eq_true, if_false]
    rw [hrun]
    dsimp only
    simp [BufSource.consume, OutBuffer.pos, hdr2, hpos, hsne]
  rw [hstep]

/-- `io::copy` out of a fresh model decoder over one whole model frame
recovers exactly the frame's content. -/
theorem decode_readAll_frame (s : List Nat) (fl : Nat) (hf : s.length + 2 ≤ fl + 1) :
    readAllR decOp 2 (fl + 1) (ReaderState.new ⟨[], frameBytes s⟩ ⟨[], none⟩) [] =
      some (⟨⟨[], []⟩, ⟨[], none⟩, true, false, true⟩, Except.ok s) := by
  by_cases h0 : s = []
  · subst h0
    rfl
  · by_cases hle : s.length ≤ 8192
    · have hr : readerRead decOp 2
          ⟨⟨[], frameBytes s⟩, ⟨[], none⟩, false, false, false⟩ 8192 =
          some (⟨⟨[], []⟩, ⟨[], none⟩, false, false, true⟩, Except.ok s,
                [OpEvent.runEv (2 + s.length)]) :=
        decOp_read_first_small s 1 h0 hle
      show readAllR decOp 2 (fl + 1)
          ⟨⟨[], frameBytes s⟩, ⟨[], none⟩, false, false, false⟩ [] = _
      unfold readAllR
      rw [hr]
      dsimp only
      have hsne : s.isEmpty = false := by
        cases s with
        | nil => exact absurd rfl h0
        | cons a l => rfl
      simp only [hsne, Bool.false_eq_true, if_false]
      obtain ⟨fl2, rfl⟩ : ∃ fl2, fl = fl2 + 1 := ⟨fl - 1, by omega⟩
      unfold readAllR
      rw [show readerRead decOp 2
          (⟨⟨[], []⟩, ⟨[], none⟩, false, false, true⟩ : ReaderState DState) 8192 =
          some (⟨⟨[], []⟩, ⟨[], none⟩, true, false, true⟩, Except.ok [],
                [OpEvent.finishEv]) from decOp_read_eof 1]
      simp
    · have hgt : 8192 < s.length := by omega
      have hr : readerRead decOp 2
          ⟨⟨[], frameBytes s⟩, ⟨[], none⟩, false, false, false⟩ 8192 =
          some (⟨⟨[], s.drop 8192⟩, ⟨[], some (s.length - 8192)⟩, false, false, false⟩,
                Except.ok (s.take 8192), [OpEvent.runEv (2 + 8192)]) :=
        decOp_read_first_large s 1 hgt
      show readAllR decOp 2 (fl + 1)
          ⟨⟨[], frameBytes s⟩, ⟨[], none⟩, false, false, false⟩ [] = _
      unfold readAllR
      rw [hr]
      dsimp only
      have htne : (s.take 8192).isEmpty = false := by
        cases ht : s.take 8192 with
        | nil =>
          exfalso
          have := congrArg List.length ht
          simp only [List.length_take, List.length_nil] at this
          omega
        | cons a l => rfl
      simp only [htne, Bool.false_eq_true, if_false]
      rw [decOp_readAll_content fl (s.length - 8192) (s.drop 8192) ([] ++ s.take 8192)
        (by simp) (by omega) (by omega)]
      simp [List.take_append_drop]

/-- `decode_all` of one model frame recovers its content. -/
theorem decode_all_frame (s : List Nat) :
    decode_all (frameBytes s) = some (Except.ok s) := by
  unfold decode_all
  have h2 : (frameBytes s).length + 2 = (s.length + 3) + 1 := by
    simp only [frameBytes, List.length_cons]
  rw [h2, decode_readAll_frame s (s.length + 3) (by omega)]

/-- C1: for every byte string `s` and every compression level `L` in
`[1, 21]`, `decode_all (encode_all s L)` recovers `s` exactly.  The native
engine is modelled from the spec as an opaque frame codec
(`modelCEngine` / `modelDEngine`); the drivers, the one-shot helpers and
their buffering are the translated source. -/
theorem c1_roundtrip (s : List Nat) (L : Nat) (_h1 : 1 ≤ L) (_h2 : L ≤ 21) :
    ∃ c, encode_all s L = some (Except.ok c) ∧
         decode_all c = some (Except.ok s) :=
  ⟨frameBytes s, encode_all_frame s L, decode_all_frame s⟩

/-- Witness for C1: the three-byte string `[7, 8, 9]` at level 3. -/
theorem c1_roundtrip_witness :
    ∃ c, encode_all [7, 8, 9] 3 = some (Except.ok c) ∧
         decode_all c = some (Except.ok [7, 8, 9]) :=
  c1_roundtrip [7, 8, 9] 3 (by decide) (by decide)

end Zst
